import Mathlib

/-!
Verification of the StockAnalysis repository (src/monitor.js, src/script.js).

The numeric engine is embedded over `ℚ` (JavaScript numbers are IEEE doubles;
the claims under study are exact algebraic/structural statements that the code
realises with exact constants, so the rational embedding is the faithful
shallow embedding of the arithmetic the code performs).  `Math.sqrt` is not
rational-valued, so `calculateBollingerBands` takes the square-root function as
an explicit parameter `sq`; every theorem that touches it only uses facts true
of `Math.sqrt` (such as `sq 0 = 0`).  JavaScript `null` is embedded as
`Option.none`.
-/

namespace StockAnalysis

/-- monitor.js `calculateSMA` (lines 54-57): mean of the newest `period`
closes, `null` when fewer than `period` points.  script.js lines 125-132 are
the identical function. -/
def calculateSMA (prices : List ℚ) (period : ℕ) : Option ℚ :=
  if prices.length < period then none
  else some ((prices.take period).sum / period)

/-- The forward EMA recurrence of monitor.js `_emaArray`'s loop (lines 65-67):
given the previous EMA value `prev`, each further price `p` contributes
`p * k + prev * (1 - k)`. -/
def emaFrom (k : ℚ) (prev : ℚ) : List ℚ → List ℚ
  | [] => []
  | p :: rest =>
    let e := p * k + prev * (1 - k)
    e :: emaFrom k e rest

/-- monitor.js `_emaArray` (lines 60-69): for oldest-first input of length
`< period` the function returns the empty array; otherwise an array aligned to
the input with `null` before index `period - 1`, the simple mean of the first
`period` values at index `period - 1`, and the recurrence afterwards.
(The JS call sites use periods 12, 26 and 9; the model is meaningful for
`period ≥ 1`.) -/
def _emaArray (oldestFirst : List ℚ) (period : ℕ) : List (Option ℚ) :=
  if oldestFirst.length < period then []
  else
    let k : ℚ := 2 / ((period : ℚ) + 1)
    let seed : ℚ := (oldestFirst.take period).sum / period
    List.replicate (period - 1) none ++
      (some seed :: (emaFrom k seed (oldestFirst.drop period)).map some)

/-- monitor.js `calculateRSI` lines 74-75: day-over-day changes of the
oldest-first series (`oldest.map((p,i) => i === 0 ? 0 : p - oldest[i-1]).slice(1)`). -/
def rsiChanges (prices : List ℚ) : List ℚ :=
  List.zipWith (fun prev next => next - prev) prices.reverse (prices.reverse.drop 1)

/-- One Wilder step for the average gain (monitor.js line 88). -/
def gainStep (period : ℕ) (g c : ℚ) : ℚ :=
  (g * ((period : ℚ) - 1) + max c 0) / period

/-- One Wilder step for the average loss (monitor.js line 89). -/
def lossStep (period : ℕ) (l c : ℚ) : ℚ :=
  (l * ((period : ℚ) - 1) + max (-c) 0) / period

/-- monitor.js `calculateRSI` (lines 72-94): Wilder's smoothing.  The seed loop
adds `changes[i]` to the gain when positive, else `|changes[i]|` to the loss,
i.e. `max c 0` and `max (-c) 0` summed over the first `period` changes. -/
def calculateRSI (prices : List ℚ) (period : ℕ := 14) : Option ℚ :=
  if prices.length < period + 1 then none
  else
    let changes := rsiChanges prices
    let seedG : ℚ := ((changes.take period).map (fun c => max c 0)).sum / period
    let seedL : ℚ := ((changes.take period).map (fun c => max (-c) 0)).sum / period
    let fin := (changes.drop period).foldl
      (fun gl c => (gainStep period gl.1 c, lossStep period gl.2 c)) (seedG, seedL)
    some (if fin.2 = 0 then 100 else 100 - 100 / (1 + fin.1 / fin.2))

/-- The MACD output record of monitor.js lines 116-120. -/
structure MACDResult where
  macd : ℚ
  signalLine : ℚ
  histogram : ℚ
  deriving DecidableEq, Repr

/-- monitor.js `calculateMACD` lines 104-107: the MACD line series, i.e. the
difference of the EMA-12 and EMA-26 chains at every index where both are
non-null, nulls filtered out.  (Inside `calculateMACD` the input has length
≥ 26, so both chains are aligned to the input and the JS `undefined` reads on
an empty `ema26arr` never occur.) -/
def macdLineValues (oldest : List ℚ) : List ℚ :=
  let e12 := _emaArray oldest 12
  let e26 := _emaArray oldest 26
  ((List.range oldest.length).map (fun i =>
    match e12.getD i none, e26.getD i none with
    | some a, some b => some (a - b)
    | _, _ => none)).filterMap id

/-- monitor.js `calculateMACD` (lines 97-121): null for fewer than 35 points,
else the last MACD-line value, the last value of the EMA-9 of the MACD line,
and their difference.  The two `getD _ 0` defaults are unreachable junk: past
both length checks the lists indexed are non-empty (claim C10 proves the
second check itself never fires). -/
def calculateMACD (prices : List ℚ) : Option MACDResult :=
  if prices.length < 35 then none
  else
    let oldest := prices.reverse
    let macdValues := macdLineValues oldest
    if macdValues.length < 9 then none
    else
      let signalArr := _emaArray macdValues 9
      let signalLine := (signalArr.getD (signalArr.length - 1) none).getD 0
      let macdLine := macdValues.getD (macdValues.length - 1) 0
      some ⟨macdLine, signalLine, macdLine - signalLine⟩

/-- The Bollinger record of monitor.js lines 129-134. -/
structure BollingerResult where
  upper : ℚ
  middle : ℚ
  lower : ℚ
  bandwidth : ℚ
  deriving DecidableEq, Repr

/-- monitor.js `calculateBollingerBands` (lines 124-135).  `sq` stands for
`Math.sqrt`, which has no exact rational embedding; theorems about this
function only assume properties `Math.sqrt` has. -/
def calculateBollingerBands (sq : ℚ → ℚ) (prices : List ℚ) (period : ℕ) :
    Option BollingerResult :=
  if prices.length < period then none
  else
    let recent := prices.take period
    let sma : ℚ := recent.sum / period
    let stdDev : ℚ := sq ((recent.map (fun p => (p - sma) ^ 2)).sum / period)
    some ⟨sma + 2 * stdDev, sma, sma - 2 * stdDev, 4 * stdDev / sma * 100⟩

/-- The momentum record of monitor.js lines 139-142. -/
structure Momentum where
  week : Option ℚ
  month : Option ℚ
  deriving DecidableEq, Repr

/-- monitor.js `calculateMomentum` (lines 138-143). -/
def calculateMomentum (prices : List ℚ) : Momentum :=
  ⟨if 6 ≤ prices.length then
      some ((prices.getD 0 0 - prices.getD 5 0) / prices.getD 5 0 * 100)
    else none,
   if 22 ≤ prices.length then
      some ((prices.getD 0 0 - prices.getD 21 0) / prices.getD 21 0 * 100)
    else none⟩

/-! Signal classifier.  The JS pushes `{text, type}` objects whose `text`
interpolates the computed numbers with `toFixed` formatting; the model keeps
the computed rational numbers themselves in a `SignalKind` tagging which push
site produced the signal (string formatting has no algorithmic content). -/

/-- The JS `type` field of a signal: 'bullish' | 'bearish' | 'warning'. -/
inductive SignalType
  | bullish
  | bearish
  | warning
  deriving DecidableEq, Repr

/-- One constructor per distinct `signals.push` site of the two
`processStockData` functions (monitor.js lines 166-219, script.js lines
150-219), carrying the numbers the pushed text interpolates. -/
inductive SignalKind
  | staleData (days : ℕ)
  | smaVs (period : ℕ) (absDiffPct sma : ℚ)
  | cross (golden : Bool)
  | rsiSig (r : ℚ)
  | macdSig (m s : ℚ)
  | bollAbove (upper : ℚ)
  | bollBelow (lower : ℚ)
  | bollWithin (pct lower upper : ℚ)
  | insufficientData (required available : ℕ)
  deriving DecidableEq, Repr

/-- A pushed signal: which site produced it and its classification. -/
structure Signal where
  kind : SignalKind
  type : SignalType
  deriving DecidableEq, Repr

/-- Price-vs-SMA signal (monitor.js lines 172-185, script.js lines 165-177):
the percentage deviation is displayed as `Math.abs` of
`(price - sma) / sma * 100`, bullish when `price > sma` else bearish. -/
def smaSignal (period : ℕ) (price s : ℚ) : Signal :=
  ⟨.smaVs period |(price - s) / s * 100| s, if s < price then .bullish else .bearish⟩

/-- Data-freshness warning (monitor.js lines 166-169, script.js 152-162). -/
def staleBlock (daysDiff : ℕ) : List Signal :=
  if 3 < daysDiff then [⟨.staleData daysDiff, .warning⟩] else []

/-- monitor.js price-vs-SMA block: when the SMA is null NOTHING is pushed
(there is no else branch at lines 172-185). -/
def smaBlockMonitor (period : ℕ) (price : ℚ) : Option ℚ → List Signal
  | some s => [smaSignal period price s]
  | none => []

/-- script.js price-vs-SMA block (lines 164-204): same comparison signal, but
with an else branch pushing an insufficient-data warning naming the required
period and the available point count. -/
def smaBlockScript (period : ℕ) (price : ℚ) (dataPoints : ℕ) : Option ℚ → List Signal
  | some s => [smaSignal period price s]
  | none => [⟨.insufficientData period dataPoints, .warning⟩]

/-- Golden/Death Cross block (monitor.js lines 187-192, script.js 206-219):
only when both SMAs are non-null. -/
def crossBlock : Option ℚ → Option ℚ → List Signal
  | some a, some b => [⟨.cross (decide (b < a)), if b < a then .bullish else .bearish⟩]
  | _, _ => []

/-- RSI block (monitor.js lines 194-200). -/
def rsiBlock : Option ℚ → List Signal
  | some r => [⟨.rsiSig r, if 70 < r then .bearish else if r < 30 then .bullish else .warning⟩]
  | none => []

/-- MACD block (monitor.js lines 202-207). -/
def macdBlock : Option MACDResult → List Signal
  | some m => [⟨.macdSig m.macd m.signalLine, if 0 < m.histogram then .bullish else .bearish⟩]
  | none => []

/-- Bollinger block (monitor.js lines 209-219).  The else branch computes the
position within the band, `(price - lower) / (upper - lower) * 100`, with no
guard on `upper - lower` (in Lean division by zero is 0; in JS it is NaN). -/
def bollingerBlock (price : ℚ) : Option BollingerResult → List Signal
  | some b =>
    if b.upper < price then [⟨.bollAbove b.upper, .bearish⟩]
    else if price < b.lower then [⟨.bollBelow b.lower, .bullish⟩]
    else [⟨.bollWithin ((price - b.lower) / (b.upper - b.lower) * 100) b.lower b.upper,
            .warning⟩]
  | none => []

/-- The signal sequence monitor.js `processStockData` pushes, in push order
(lines 163-219). -/
def monitorSignals (daysDiff : ℕ) (price : ℚ) (sma50 sma100 rsi : Option ℚ)
    (macd : Option MACDResult) (bb : Option BollingerResult) : List Signal :=
  staleBlock daysDiff ++ smaBlockMonitor 50 price sma50 ++
    smaBlockMonitor 100 price sma100 ++ crossBlock sma50 sma100 ++
    rsiBlock rsi ++ macdBlock macd ++ bollingerBlock price bb

/-- The signal sequence script.js `processStockData` pushes, in push order
(lines 150-219): staleness, price vs SMA-50, price vs SMA-200, cross. -/
def scriptSignals (daysDiff : ℕ) (price : ℚ) (sma50 sma200 : Option ℚ)
    (dataPoints : ℕ) : List Signal :=
  staleBlock daysDiff ++ smaBlockScript 50 price dataPoints sma50 ++
    smaBlockScript 200 price dataPoints sma200 ++ crossBlock sma50 sma200

/-! Extraction of the price series from the provider payload.  Dates are the
numeric values JS obtains from `new Date(dateString)` (the sort comparator is
`new Date(b) - new Date(a)`), so the model keys entries by `ℕ`. -/

/-- A raw `'4. close'` field: a numeric string, or text that does not parse
as a number. -/
inductive CloseField
  | num (q : ℚ)
  | nonNumeric
  deriving DecidableEq, Repr

/-- JS `parseFloat`: a numeric close parses to its value, a non-numeric close
to `NaN` — modelled `none`.  `parseFloat` never throws. -/
def jsParseFloat : CloseField → Option ℚ
  | .num q => some q
  | .nonNumeric => none

/-- Insertion into a date-descending list (the effect of the JS
`sort((a, b) => new Date(b) - new Date(a))` on unique date keys). -/
def insertDesc {α : Type} (x : ℕ × α) : List (ℕ × α) → List (ℕ × α)
  | [] => [x]
  | y :: t => if y.1 ≤ x.1 then x :: y :: t else y :: insertDesc x t

/-- Sort entries newest-date-first. -/
def sortDatesDesc {α : Type} : List (ℕ × α) → List (ℕ × α)
  | [] => []
  | x :: t => insertDesc x (sortDatesDesc t)

/-- The extraction line of both `processStockData` functions (monitor.js line
154, script.js line 143): `dates.map(date => parseFloat(ts[date]['4. close']))`.
It is a total map — a non-numeric close becomes NaN (`none`) in the price
array; no error of any kind is raised. -/
def extractCloses (series : List (ℕ × CloseField)) : List (Option ℚ) :=
  (sortDatesDesc series).map (fun e => jsParseFloat e.2)

/-! The orchestrator (monitor.js `main`, lines 398-417) and the fetch layer
(script.js lines 6-122).  The network is an oracle: each fetch's classified
outcome (`fetchStockData`'s five thrown error kinds, or the payload) is a
parameter, since the HTTP response is external input. -/

/-- A well-formed provider payload: the `'Time Series (Daily)'` map as dated
numeric closes (the malformed-close case is modelled by `extractCloses`
above). -/
structure Payload where
  series : List (ℕ × ℚ)
  deriving DecidableEq, Repr

/-- The five error kinds monitor.js `fetchStockData` throws (lines 32-45) and
script.js `fetchStockData` throws (lines 79-120): there is no MalformedData
kind anywhere in the code. -/
inductive FetchErr
  | networkError (status : ℕ)
  | invalidTicker
  | rateLimit
  | apiKeyError
  | noData
  deriving DecidableEq, Repr

/-- monitor.js's per-ticker result object (lines 221-234 on success; line 415
on failure, where only `ticker`, `error`, `signals` are set — the other
fields are `undefined`, modelled `none`). -/
structure AnalysisResult where
  ticker : String
  latestDate : Option ℕ
  latestPrice : Option ℚ
  sma50 : Option ℚ
  sma100 : Option ℚ
  rsi : Option ℚ
  macd : Option MACDResult
  bb : Option BollingerResult
  mom : Option Momentum
  signals : List Signal
  dataPoints : Option ℕ
  error : Option FetchErr
  deriving DecidableEq, Repr

/-- Milliseconds per day (monitor.js line 166). -/
def msPerDay : ℕ := 1000 * 60 * 60 * 24

/-- monitor.js `processStockData` (lines 148-235) on a well-formed payload:
sort dates descending, take the newest close as the latest price, compute the
six indicators, push the signals, and return the result with `error: null`.
`now` is `Date.now()`.  (The `headD (0, 0)` default is unreachable junk: the
fetch layer rejects an empty time series with NO_DATA before this runs.) -/
def processStockDataM (sq : ℚ → ℚ) (now : ℕ) (data : Payload) (ticker : String) :
    AnalysisResult :=
  let sorted := sortDatesDesc data.series
  let latestDate := (sorted.headD (0, 0)).1
  let latestPrice := (sorted.headD (0, 0)).2
  let closingPrices := sorted.map (fun e => e.2)
  let sma50 := calculateSMA closingPrices 50
  let sma100 := calculateSMA closingPrices 100
  let rsi := calculateRSI closingPrices 14
  let macd := calculateMACD closingPrices
  let bb := calculateBollingerBands sq closingPrices 20
  let mom := calculateMomentum closingPrices
  let daysDiff := (now - latestDate) / msPerDay
  ⟨ticker.toUpper, some latestDate, some latestPrice, sma50, sma100, rsi, macd, bb,
    some mom, monitorSignals daysDiff latestPrice sma50 sma100 rsi macd bb,
    some closingPrices.length, none⟩

/-- The catch branch of monitor.js `main` (line 415):
`{ ticker: ticker.toUpperCase(), error: err.message, signals: [] }`. -/
def errorResult (ticker : String) (e : FetchErr) : AnalysisResult :=
  ⟨ticker.toUpper, none, none, none, none, none, none, none, none, [], none, some e⟩

/-- The per-ticker loop of monitor.js `main` (lines 400-417): for each ticker
in order, fetch and analyse inside try, pushing the analysis on success and
an error result on failure; the loop always continues to the next ticker.
`fetchRes` is the classified outcome of `fetchStockData` per ticker. -/
def mainLoop (sq : ℚ → ℚ) (now : ℕ) (fetchRes : String → Except FetchErr Payload)
    (tickers : List String) : List AnalysisResult :=
  tickers.map (fun t =>
    match fetchRes t with
    | .ok d => processStockDataM sq now d t
    | .error e => errorResult t e)

/-- script.js line 4. -/
def CACHE_DURATION_MS : ℕ := 4 * 60 * 60 * 1000

/-- script.js line 5 / monitor.js line 13. -/
def API_RATE_LIMIT_DELAY : ℕ := 12000

/-- script.js module state: the localStorage cache (key `stock_<ticker>`,
value `{timestamp, data}`) and the shared `lastAPICallTime` (line 6). -/
structure FetchState where
  cache : String → Option (ℕ × Payload)
  lastAPICallTime : ℕ

/-- script.js `getCachedData` (lines 9-35): a missing entry yields null; a
non-expired entry (`now - timestamp < CACHE_DURATION_MS`) yields its payload;
an expired entry is removed and null returned.  (The JSON-corruption catch
branch cannot arise in the model, where stored entries are structured.) -/
def getCachedData (st : FetchState) (ticker : String) (now : ℕ) :
    Option Payload × FetchState :=
  match st.cache ticker with
  | none => (none, st)
  | some (ts, d) =>
    if now - ts < CACHE_DURATION_MS then (some d, st)
    else (none, { st with cache := fun k => if k = ticker then none else st.cache k })

/-- script.js `setCachedData` (lines 37-50): store `{timestamp: Date.now(),
data}`, unconditionally overwriting. -/
def setCachedData (st : FetchState) (ticker : String) (now : ℕ) (d : Payload) :
    FetchState :=
  { st with cache := fun k => if k = ticker then some (now, d) else st.cache k }

/-- What one invocation of script.js `fetchStockData` did: its returned or
thrown value, the state it left, how many outbound network calls it issued,
when it issued one, and the time at which it returned. -/
structure FetchOutcome where
  result : Except FetchErr Payload
  state : FetchState
  networkCalls : ℕ
  callTime : Option ℕ
  endTime : ℕ

/-- script.js `fetchStockData` (lines 53-122), with time explicit: `now` is
`Date.now()` at entry, `net` the classified outcome of the network call, and
`netDur` how long the call and response handling took.  The cache check comes
first and returns without touching `lastAPICallTime`; otherwise the code
waits out the remainder of `API_RATE_LIMIT_DELAY` since `lastAPICallTime`,
sets `lastAPICallTime` to the call instant, issues the one network call, and
on success caches the payload at the response time. -/
def fetchStockDataS (st : FetchState) (ticker : String) (now : ℕ)
    (net : Except FetchErr Payload) (netDur : ℕ) : FetchOutcome :=
  match getCachedData st ticker now with
  | (some d, st1) => ⟨.ok d, st1, 0, none, now⟩
  | (none, st1) =>
    let wait := if now - st1.lastAPICallTime < API_RATE_LIMIT_DELAY
                then API_RATE_LIMIT_DELAY - (now - st1.lastAPICallTime) else 0
    let callT := now + wait
    let st2 : FetchState := { st1 with lastAPICallTime := callT }
    match net with
    | .error e => ⟨.error e, st2, 1, some callT, callT + netDur⟩
    | .ok d => ⟨.ok d, setCachedData st2 ticker (callT + netDur) d, 1, some callT,
                callT + netDur⟩

/-- One queued fetch invocation: its ticker, the time elapsed since the
previous invocation returned (calls are strictly sequential, §5 of the spec),
the classified network outcome and the network duration. -/
structure FetchReq where
  ticker : String
  gap : ℕ
  net : Except FetchErr Payload
  netDur : ℕ

/-- A sequential run of fetch invocations through the shared state, as the
orchestrator performs them one at a time. -/
def runFetches : FetchState → ℕ → List FetchReq → List FetchOutcome
  | _, _, [] => []
  | st, now, r :: rest =>
    let o := fetchStockDataS st r.ticker (now + r.gap) r.net r.netDur
    o :: runFetches o.state o.endTime rest

end StockAnalysis

namespace StockAnalysis

/-- C1: For every newest-first price sequence shorter than the indicator's
required length, the indicator returns null (`none`) — not zero and not an
exception: SMA below `period` points, RSI(14) below 15 points, MACD below 35
points, Bollinger Bands below 20 points.  (Each function is total, so no
exception is possible; `none` is distinct from `some 0`.) -/
theorem short_input_gives_null (prices : List ℚ) :
    (∀ period : ℕ, prices.length < period → calculateSMA prices period = none) ∧
    (prices.length < 15 → calculateRSI prices 14 = none) ∧
    (prices.length < 35 → calculateMACD prices = none) ∧
    (prices.length < 20 → calculateBollingerBands (fun q => q) prices 20 = none) := by
  refine ⟨fun period h => ?_, fun h => ?_, fun h => ?_, fun h => ?_⟩
  · simp [calculateSMA, h]
  · simp [calculateRSI, show prices.length < 14 + 1 from h]
  · simp [calculateMACD, h]
  · simp [calculateBollingerBands, h]

/-- Witness for C1 at the concrete one-point series `[1]`. -/
theorem short_input_gives_null_witness :
    calculateSMA [(1 : ℚ)] 2 = none ∧ calculateRSI [(1 : ℚ)] 14 = none ∧
    calculateMACD [(1 : ℚ)] = none ∧
    calculateBollingerBands (fun q => q) [(1 : ℚ)] 20 = none :=
  ⟨(short_input_gives_null [(1 : ℚ)]).1 2 (by decide),
   (short_input_gives_null [(1 : ℚ)]).2.1 (by decide),
   (short_input_gives_null [(1 : ℚ)]).2.2.1 (by decide),
   (short_input_gives_null [(1 : ℚ)]).2.2.2 (by decide)⟩

theorem emaFrom_length (k p : ℚ) (ls : List ℚ) : (emaFrom k p ls).length = ls.length := by
  induction ls generalizing p with
  | nil => rfl
  | cons a t ih => simpa [emaFrom] using ih _

theorem emaFrom_getD_zero (k p : ℚ) (ls : List ℚ) (h : 0 < ls.length) :
    (emaFrom k p ls).getD 0 0 = ls.getD 0 0 * k + p * (1 - k) := by
  cases ls with
  | nil => simp at h
  | cons a t => simp [emaFrom]

theorem emaFrom_getD_succ (k : ℚ) (ls : List ℚ) (p : ℚ) (j : ℕ) (hj : j + 1 < ls.length) :
    (emaFrom k p ls).getD (j + 1) 0 =
      ls.getD (j + 1) 0 * k + (emaFrom k p ls).getD j 0 * (1 - k) := by
  induction ls generalizing p j with
  | nil => simp at hj
  | cons a t ih =>
    cases j with
    | zero =>
      cases t with
      | nil => simp at hj
      | cons b t2 => simp [emaFrom]
    | succ j2 =>
      have hj2 : j2 + 1 < t.length := by simpa using hj
      simp only [emaFrom, List.getD_cons_succ]
      exact ih _ j2 hj2

theorem emaArray_length (l : List ℚ) (period : ℕ) (h1 : 1 ≤ period)
    (h2 : period ≤ l.length) : (_emaArray l period).length = l.length := by
  simp only [_emaArray, if_neg (not_lt.mpr h2)]
  simp [emaFrom_length, List.length_replicate]
  omega

theorem emaArray_getD_of_lt (l : List ℚ) (period i : ℕ) (h2 : period ≤ l.length)
    (hi : i < period - 1) : (_emaArray l period).getD i none = none := by
  simp only [_emaArray, if_neg (not_lt.mpr h2)]
  rw [List.getD_eq_getElem?_getD,
    List.getElem?_append_left (by simpa using hi), List.getElem?_replicate]
  simp [hi]

theorem emaArray_getD_seed (l : List ℚ) (period : ℕ) (h2 : period ≤ l.length) :
    (_emaArray l period).getD (period - 1) none =
      some ((l.take period).sum / period) := by
  simp only [_emaArray, if_neg (not_lt.mpr h2)]
  rw [List.getD_eq_getElem?_getD,
    List.getElem?_append_right (by simp), List.length_replicate]
  simp

theorem emaArray_getD_chain (l : List ℚ) (period i : ℕ) (h1 : 1 ≤ period)
    (h2 : period ≤ l.length) (hp : period ≤ i) (hi : i < l.length) :
    (_emaArray l period).getD i none =
      some ((emaFrom (2 / ((period : ℚ) + 1)) ((l.take period).sum / period)
        (l.drop period)).getD (i - period) 0) := by
  simp only [_emaArray, if_neg (not_lt.mpr h2)]
  rw [List.getD_eq_getElem?_getD,
    List.getElem?_append_right (by simp; omega), List.length_replicate]
  have hidx : i - (period - 1) = (i - period) + 1 := by omega
  rw [hidx, List.getElem?_cons_succ, List.getElem?_map]
  have hlt : i - period <
      (emaFrom (2 / ((period : ℚ) + 1)) ((l.take period).sum / period)
        (l.drop period)).length := by
    rw [emaFrom_length, List.length_drop]; omega
  rw [List.getElem?_eq_getElem hlt, List.getD_eq_getElem _ _ hlt]
  rfl

theorem emaArray_getD_none_iff (l : List ℚ) (period i : ℕ) (h1 : 1 ≤ period)
    (h2 : period ≤ l.length) (hi : i < l.length) :
    ((_emaArray l period).getD i none = none ↔ i < period - 1) := by
  constructor
  · intro h
    by_contra hge
    rcases Nat.lt_or_ge i period with hcase | hcase
    · have : i = period - 1 := by omega
      rw [this, emaArray_getD_seed l period h2] at h
      exact Option.noConfusion h
    · rw [emaArray_getD_chain l period i h1 h2 hcase hi] at h
      exact Option.noConfusion h
  · exact emaArray_getD_of_lt l period i h2

/-- C4 counterexample: on the one-point oldest-first sequence with period 2
(shorter than the period), `_emaArray` returns the empty array, which is not
aligned to (equal in length to) the input. -/
theorem emaArray_short_not_aligned :
    ¬ (_emaArray [(1 : ℚ)] 2).length = ([(1 : ℚ)] : List ℚ).length := by decide

/-- C4 as amended: for every oldest-first price sequence of length at least
`period` (`period ≥ 1`), the EMA chain is aligned to the input, has nulls at
every index before `period - 1`, the simple mean of the first `period` values
at index `period - 1`, and satisfies `ema[i] = price[i] * k + ema[i-1] * (1-k)`
with `k = 2 / (period + 1)` for every `period ≤ i < length`; for shorter
input the code returns the empty array instead. -/
theorem emaArray_spec (l : List ℚ) (period : ℕ) (h1 : 1 ≤ period)
    (h2 : period ≤ l.length) :
    (_emaArray l period).length = l.length ∧
    (∀ i, i < period - 1 → (_emaArray l period).getD i none = none) ∧
    (_emaArray l period).getD (period - 1) none =
      some ((l.take period).sum / period) ∧
    (∀ i, period ≤ i → i < l.length → ∃ prev cur,
      (_emaArray l period).getD (i - 1) none = some prev ∧
      (_emaArray l period).getD i none = some cur ∧
      cur = l.getD i 0 * (2 / ((period : ℚ) + 1)) +
        prev * (1 - 2 / ((period : ℚ) + 1))) := by
  refine ⟨emaArray_length l period h1 h2,
    fun i hi => emaArray_getD_of_lt l period i h2 hi,
    emaArray_getD_seed l period h2, fun i hp hi => ?_⟩
  set k : ℚ := 2 / ((period : ℚ) + 1) with hk
  set seed : ℚ := (l.take period).sum / period with hseed
  have hdropGetD : ∀ j, (l.drop period).getD j 0 = l.getD (period + j) 0 := by
    intro j
    rw [List.getD_eq_getElem?_getD, List.getD_eq_getElem?_getD, List.getElem?_drop]
  rcases Nat.eq_or_lt_of_le hp with heq | hgt
  · -- i = period: the previous entry is the seed
    subst heq
    refine ⟨seed, (emaFrom k seed (l.drop period)).getD 0 0, ?_, ?_, ?_⟩
    · simpa using emaArray_getD_seed l period h2
    · simpa using emaArray_getD_chain l period period h1 h2 le_rfl hi
    · rw [emaFrom_getD_zero k seed (l.drop period)
        (by rw [List.length_drop]; omega), hdropGetD 0]
      simp
  · -- i > period: the previous entry is the chain value at i - 1 - period
    have hp' : period ≤ i - 1 := by omega
    have hi' : i - 1 < l.length := by omega
    refine ⟨(emaFrom k seed (l.drop period)).getD (i - 1 - period) 0,
      (emaFrom k seed (l.drop period)).getD (i - period) 0,
      emaArray_getD_chain l period (i - 1) h1 h2 hp' hi',
      emaArray_getD_chain l period i h1 h2 hp hi, ?_⟩
    have hj : i - period = (i - period - 1) + 1 := by omega
    rw [hj, emaFrom_getD_succ k (l.drop period) seed (i - period - 1)
      (by rw [List.length_drop]; omega)]
    have h1' : i - 1 - period = i - period - 1 := by omega
    rw [h1', hdropGetD]
    have : period + (i - period - 1 + 1) = i := by omega
    rw [this]

/-- Witness for C4's amended theorem at `l = [1, 2, 3]`, `period = 2`. -/
theorem emaArray_spec_witness :
    1 ≤ 2 ∧ 2 ≤ ([(1 : ℚ), 2, 3] : List ℚ).length ∧
      (_emaArray [(1 : ℚ), 2, 3] 2).length = ([(1 : ℚ), 2, 3] : List ℚ).length :=
  ⟨by decide, by decide, (emaArray_spec [(1 : ℚ), 2, 3] 2 (by decide) (by decide)).1⟩

theorem length_filterMap_range {α : Type} (f : ℕ → Option α) (b : ℕ) :
    ∀ n, b ≤ n → (∀ i, i < n → ((f i).isSome = true ↔ b ≤ i)) →
      ((List.range n).filterMap f).length = n - b := by
  intro n
  induction n with
  | zero =>
    intro hb _
    simp [Nat.le_zero.mp hb]
  | succ n ih =>
    intro hb hf
    rw [List.range_succ, List.filterMap_append, List.length_append]
    by_cases hbn : b ≤ n
    · rw [ih hbn (fun i hi => hf i (by omega))]
      have hn : (f n).isSome = true := (hf n (by omega)).mpr hbn
      obtain ⟨a, ha⟩ := Option.isSome_iff_exists.mp hn
      simp only [List.filterMap, ha]
      simp
      omega
    · have h0 : (List.range n).filterMap f = [] := by
        rw [List.filterMap_eq_nil_iff]
        intro i hi
        rw [List.mem_range] at hi
        have hiff := hf i (by omega)
        rw [← Option.not_isSome_iff_eq_none]
        intro hs
        have hbi : b ≤ i := hiff.mp hs
        omega
      have h1 : f n = none := by
        rw [← Option.not_isSome_iff_eq_none]
        intro hs
        exact hbn ((hf n (by omega)).mp hs)
      simp [h0, h1]
      omega

theorem macdLineValues_length (oldest : List ℚ) (h : 26 ≤ oldest.length) :
    (macdLineValues oldest).length = oldest.length - 25 := by
  have h12 : 12 ≤ oldest.length := by omega
  have h26 : 26 ≤ oldest.length := h
  simp only [macdLineValues]
  rw [List.filterMap_map]
  refine length_filterMap_range _ 25 oldest.length (by omega) (fun i hi => ?_)
  have e12 := emaArray_getD_none_iff oldest 12 i (by omega) h12 hi
  have e26 := emaArray_getD_none_iff oldest 26 i (by omega) h26 hi
  simp only [Function.comp, id]
  constructor
  · intro hs
    rcases hA : (_emaArray oldest 12).getD i none with _ | a
    · rw [hA] at hs; simp at hs
    · rcases hB : (_emaArray oldest 26).getD i none with _ | b
      · rw [hA, hB] at hs; simp at hs
      · have hBne : ¬ (_emaArray oldest 26).getD i none = none := by
          rw [hB]; exact fun hx => Option.noConfusion hx
        have : ¬ i < 26 - 1 := fun hlt => hBne (e26.mpr hlt)
        omega
  · intro hb
    have hA : ¬ (_emaArray oldest 12).getD i none = none := fun hx => by
      have := e12.mp hx; omega
    have hB : ¬ (_emaArray oldest 26).getD i none = none := fun hx => by
      have := e26.mp hx; omega
    rcases hA' : (_emaArray oldest 12).getD i none with _ | a
    · exact (hA hA').elim
    · rcases hB' : (_emaArray oldest 26).getD i none with _ | b
      · exact (hB hB').elim
      · rfl

/-- C10: For every newest-first price sequence of length at least 35, the
MACD-line series built inside `calculateMACD` (differences of the EMA-12 and
EMA-26 chains where both are defined) has exactly `length - 25 ≥ 10` values,
so the internal "fewer than 9 valid values" branch never fires, and
`calculateMACD` returns null exactly when the input has fewer than 35
points. -/
theorem macd_line_ample (prices : List ℚ) :
    (35 ≤ prices.length → 10 ≤ (macdLineValues prices.reverse).length) ∧
    (calculateMACD prices = none ↔ prices.length < 35) := by
  constructor
  · intro h35
    rw [macdLineValues_length prices.reverse (by simpa using by omega : 26 ≤ prices.reverse.length)]
    simp only [List.length_reverse]
    omega
  · by_cases h : prices.length < 35
    · simp [calculateMACD, h]
    · have hlen : (macdLineValues prices.reverse).length = prices.length - 25 := by
        rw [macdLineValues_length prices.reverse]
        · simp
        · simp; omega
      simp only [calculateMACD, if_neg h, hlen]
      rw [if_neg (by omega)]
      simp [h]

/-- Witness for C10 at a concrete 35-point series. -/
theorem macd_line_ample_witness :
    35 ≤ (List.replicate 35 (1 : ℚ)).length ∧
      10 ≤ (macdLineValues (List.replicate 35 (1 : ℚ)).reverse).length :=
  ⟨by simp, (macd_line_ample (List.replicate 35 (1 : ℚ))).1 (by simp)⟩

theorem foldl_wilder_split (period : ℕ) (ls : List ℚ) (g0 l0 : ℚ) :
    ls.foldl (fun gl c => (gainStep period gl.1 c, lossStep period gl.2 c)) (g0, l0) =
      (ls.foldl (gainStep period) g0, ls.foldl (lossStep period) l0) := by
  induction ls generalizing g0 l0 with
  | nil => rfl
  | cons c t ih => simp only [List.foldl_cons]; exact ih _ _

theorem gainStep_nonneg (period : ℕ) (hp : 1 ≤ period) (g c : ℚ) (hg : 0 ≤ g) :
    0 ≤ gainStep period g c := by
  have hp' : (1 : ℚ) ≤ period := by exact_mod_cast hp
  have h1 : 0 ≤ g * ((period : ℚ) - 1) := mul_nonneg hg (by linarith)
  have h2 : (0 : ℚ) ≤ max c 0 := le_max_right c 0
  exact div_nonneg (by linarith) (by linarith)

theorem lossStep_nonneg (period : ℕ) (hp : 1 ≤ period) (l c : ℚ) (hl : 0 ≤ l) :
    0 ≤ lossStep period l c := by
  have hp' : (1 : ℚ) ≤ period := by exact_mod_cast hp
  have h1 : 0 ≤ l * ((period : ℚ) - 1) := mul_nonneg hl (by linarith)
  have h2 : (0 : ℚ) ≤ max (-c) 0 := le_max_right (-c) 0
  exact div_nonneg (by linarith) (by linarith)

theorem foldl_gainStep_nonneg (period : ℕ) (hp : 1 ≤ period) (ls : List ℚ)
    (g0 : ℚ) (h0 : 0 ≤ g0) : 0 ≤ ls.foldl (gainStep period) g0 := by
  induction ls generalizing g0 with
  | nil => exact h0
  | cons c t ih => exact ih _ (gainStep_nonneg period hp g0 c h0)

theorem foldl_lossStep_nonneg (period : ℕ) (hp : 1 ≤ period) (ls : List ℚ)
    (l0 : ℚ) (h0 : 0 ≤ l0) : 0 ≤ ls.foldl (lossStep period) l0 := by
  induction ls generalizing l0 with
  | nil => exact h0
  | cons c t ih => exact ih _ (lossStep_nonneg period hp l0 c h0)

theorem foldl_lossStep_zero (period : ℕ) (ls : List ℚ)
    (h : ∀ c ∈ ls, 0 < c) : ls.foldl (lossStep period) 0 = 0 := by
  induction ls with
  | nil => rfl
  | cons c t ih =>
    have hc : max (-c) 0 = 0 :=
      max_eq_right (neg_nonpos_of_nonneg (le_of_lt (h c (List.mem_cons_self c t))))
    rw [List.foldl_cons]
    have hstep : lossStep period 0 c = 0 := by simp [lossStep, hc]
    rw [hstep]
    exact ih (fun x hx => h x (List.mem_cons_of_mem c hx))

theorem foldl_gainStep_zero (period : ℕ) (ls : List ℚ)
    (h : ∀ c ∈ ls, c < 0) : ls.foldl (gainStep period) 0 = 0 := by
  induction ls with
  | nil => rfl
  | cons c t ih =>
    have hc : max c 0 = 0 := max_eq_right (le_of_lt (h c (List.mem_cons_self c t)))
    rw [List.foldl_cons]
    have hstep : gainStep period 0 c = 0 := by simp [gainStep, hc]
    rw [hstep]
    exact ih (fun x hx => h x (List.mem_cons_of_mem c hx))

theorem foldl_lossStep_pos (period : ℕ) (hp : 2 ≤ period) (ls : List ℚ)
    (l0 : ℚ) (h0 : 0 < l0) : 0 < ls.foldl (lossStep period) l0 := by
  induction ls generalizing l0 with
  | nil => exact h0
  | cons c t ih =>
    refine ih _ ?_
    have hp' : (2 : ℚ) ≤ period := by exact_mod_cast hp
    have h1 : 0 < l0 * ((period : ℚ) - 1) := mul_pos h0 (by linarith)
    have h2 : (0 : ℚ) ≤ max (-c) 0 := le_max_right (-c) 0
    exact div_pos (by linarith) (by linarith)

theorem chain_lt_changes (l : List ℚ) (h : List.Chain' (· < ·) l) :
    ∀ c ∈ List.zipWith (fun prev next => next - prev) l (l.drop 1), 0 < c := by
  induction l with
  | nil => simp
  | cons a t ih =>
    cases t with
    | nil => simp
    | cons b t2 =>
      intro c hc
      rw [List.chain'_cons] at h
      simp only [List.drop_succ_cons, List.drop_zero, List.zipWith_cons_cons] at hc
      rcases List.mem_cons.mp hc with hc1 | hc2
      · rw [hc1]; linarith [h.1]
      · exact ih h.2 c (by simpa using hc2)

theorem chain_gt_changes (l : List ℚ) (h : List.Chain' (· > ·) l) :
    ∀ c ∈ List.zipWith (fun prev next => next - prev) l (l.drop 1), c < 0 := by
  induction l with
  | nil => simp
  | cons a t ih =>
    cases t with
    | nil => simp
    | cons b t2 =>
      intro c hc
      rw [List.chain'_cons] at h
      simp only [List.drop_succ_cons, List.drop_zero, List.zipWith_cons_cons] at hc
      rcases List.mem_cons.mp hc with hc1 | hc2
      · rw [hc1]; have : b < a := h.1; linarith
      · exact ih h.2 c (by simpa using hc2)

theorem rsiChanges_length (prices : List ℚ) :
    (rsiChanges prices).length = prices.length - 1 := by
  simp only [rsiChanges, List.length_zipWith, List.length_reverse, List.length_drop]
  omega

/-- C3: For every price sequence of length at least 15, RSI(prices, 14) is
defined and lies in [0, 100]; if every day-over-day change is an increase
(each newer price strictly above the next-older one), RSI is exactly 100,
and if every change is a decrease, RSI is exactly 0. -/
theorem rsi_bounds (prices : List ℚ) (h : 15 ≤ prices.length) :
    (∃ r, calculateRSI prices 14 = some r ∧ 0 ≤ r ∧ r ≤ 100) ∧
    (List.Chain' (fun a b => b < a) prices → calculateRSI prices 14 = some 100) ∧
    (List.Chain' (fun a b => a < b) prices → calculateRSI prices 14 = some 0) := by
  have hnot : ¬ prices.length < 14 + 1 := by omega
  have hchlen : (rsiChanges prices).length = prices.length - 1 :=
    rsiChanges_length prices
  simp only [calculateRSI, if_neg hnot, foldl_wilder_split]
  set changes := rsiChanges prices with hchdef
  set seedG : ℚ := ((changes.take 14).map (fun c => max c 0)).sum / (14 : ℕ) with hseedG
  set seedL : ℚ := ((changes.take 14).map (fun c => max (-c) 0)).sum / (14 : ℕ) with hseedL
  have hseedG0 : 0 ≤ seedG := by
    rw [hseedG]
    refine div_nonneg (List.sum_nonneg ?_) (by norm_num)
    intro x hx
    obtain ⟨c, _, rfl⟩ := List.mem_map.mp hx
    exact le_max_right c 0
  have hseedL0 : 0 ≤ seedL := by
    rw [hseedL]
    refine div_nonneg (List.sum_nonneg ?_) (by norm_num)
    intro x hx
    obtain ⟨c, _, rfl⟩ := List.mem_map.mp hx
    exact le_max_right (-c) 0
  refine ⟨?_, ?_, ?_⟩
  · -- bounds
    refine ⟨_, rfl, ?_⟩
    have hG : 0 ≤ (changes.drop 14).foldl (gainStep 14) seedG :=
      foldl_gainStep_nonneg 14 (by norm_num) _ seedG hseedG0
    have hL : 0 ≤ (changes.drop 14).foldl (lossStep 14) seedL :=
      foldl_lossStep_nonneg 14 (by norm_num) _ seedL hseedL0
    by_cases hz : (changes.drop 14).foldl (lossStep 14) seedL = 0
    · rw [if_pos hz]; norm_num
    · rw [if_neg hz]
      have hLpos : 0 < (changes.drop 14).foldl (lossStep 14) seedL :=
        lt_of_le_of_ne hL (Ne.symm hz)
      have hr : 0 ≤ (changes.drop 14).foldl (gainStep 14) seedG /
          (changes.drop 14).foldl (lossStep 14) seedL := div_nonneg hG (le_of_lt hLpos)
      have hd1 : (0 : ℚ) < 1 + (changes.drop 14).foldl (gainStep 14) seedG /
          (changes.drop 14).foldl (lossStep 14) seedL := by linarith
      have hle : (100 : ℚ) / (1 + (changes.drop 14).foldl (gainStep 14) seedG /
          (changes.drop 14).foldl (lossStep 14) seedL) ≤ 100 :=
        div_le_self (by norm_num) (by linarith)
      have hpos : (0 : ℚ) < 100 / (1 + (changes.drop 14).foldl (gainStep 14) seedG /
          (changes.drop 14).foldl (lossStep 14) seedL) := div_pos (by norm_num) hd1
      constructor <;> linarith
  · -- all increasing: RSI = 100
    intro hinc
    have hrev : List.Chain' (· < ·) prices.reverse := by
      rw [List.chain'_reverse]
      exact hinc
    have hpos : ∀ c ∈ changes, 0 < c := by
      rw [hchdef]
      exact chain_lt_changes prices.reverse hrev
    have hseedLz : seedL = 0 := by
      rw [hseedL]
      have : ((changes.take 14).map (fun c => max (-c) 0)).sum = 0 := by
        refine List.sum_eq_zero ?_
        intro x hx
        obtain ⟨c, hc, rfl⟩ := List.mem_map.mp hx
        exact max_eq_right
          (neg_nonpos_of_nonneg (le_of_lt (hpos c (List.take_subset 14 changes hc))))
      rw [this]; norm_num
    have hLz : (changes.drop 14).foldl (lossStep 14) seedL = 0 := by
      rw [hseedLz]
      exact foldl_lossStep_zero 14 _ (fun c hc => hpos c (List.drop_subset 14 changes hc))
    rw [if_pos hLz]
  · -- all decreasing: RSI = 0
    intro hdec
    have hrev : List.Chain' (· > ·) prices.reverse := by
      rw [List.chain'_reverse]
      exact hdec
    have hneg : ∀ c ∈ changes, c < 0 := by
      rw [hchdef]
      exact chain_gt_changes prices.reverse hrev
    have hGz : (changes.drop 14).foldl (gainStep 14) seedG = 0 := by
      have hseedGz : seedG = 0 := by
        rw [hseedG]
        have : ((changes.take 14).map (fun c => max c 0)).sum = 0 := by
          refine List.sum_eq_zero ?_
          intro x hx
          obtain ⟨c, hc, rfl⟩ := List.mem_map.mp hx
          exact max_eq_right (le_of_lt (hneg c (List.take_subset 14 changes hc)))
        rw [this]; norm_num
      rw [hseedGz]
      exact foldl_gainStep_zero 14 _ (fun c hc => hneg c (List.drop_subset 14 changes hc))
    have hseedLpos : 0 < seedL := by
      rw [hseedL]
      refine div_pos (List.sum_pos _ ?_ ?_) (by norm_num)
      · intro x hx
        obtain ⟨c, hc, rfl⟩ := List.mem_map.mp hx
        have hc0 : c < 0 := hneg c (List.take_subset 14 changes hc)
        have : max (-c) 0 = -c := max_eq_left (by linarith)
        rw [this]; linarith
      · have hlen14 : (changes.take 14).length = 14 := by
          rw [List.length_take]; omega
        intro hnil
        have hlen0 := congrArg List.length hnil
        simp [hlen14] at hlen0
        rw [hlen0] at hlen14
        simp at hlen14
    have hLpos : 0 < (changes.drop 14).foldl (lossStep 14) seedL :=
      foldl_lossStep_pos 14 (by norm_num) _ seedL hseedLpos
    rw [if_neg hLpos.ne', hGz]
    norm_num

/-- Witness for C3: the 15-point strictly falling (newest-first) series
`[15, 14, ..., 1]` rises through time, so its RSI is exactly 100. -/
theorem rsi_bounds_witness :
    15 ≤ ([(15 : ℚ), 14, 13, 12, 11, 10, 9, 8, 7, 6, 5, 4, 3, 2, 1] : List ℚ).length ∧
    calculateRSI [(15 : ℚ), 14, 13, 12, 11, 10, 9, 8, 7, 6, 5, 4, 3, 2, 1] 14 =
      some 100 :=
  ⟨by decide,
   (rsi_bounds [(15 : ℚ), 14, 13, 12, 11, 10, 9, 8, 7, 6, 5, 4, 3, 2, 1]
     (by decide)).2.1 (by norm_num [List.chain'_cons])⟩

theorem monitorSignals_no_insufficient (days : ℕ) (price : ℚ) (o50 o100 oR : Option ℚ)
    (oM : Option MACDResult) (oB : Option BollingerResult) :
    ∀ s ∈ monitorSignals days price o50 o100 oR oM oB,
      ∀ req avail, s.kind ≠ SignalKind.insufficientData req avail := by
  intro s hs req avail
  simp only [monitorSignals, List.mem_append] at hs
  rcases hs with ((((((h | h) | h) | h) | h) | h) | h)
  · unfold staleBlock at h
    split at h
    · simp at h; subst h; simp
    · simp at h
  · cases o50 with
    | none => simp [smaBlockMonitor] at h
    | some v => simp [smaBlockMonitor] at h; subst h; simp [smaSignal]
  · cases o100 with
    | none => simp [smaBlockMonitor] at h
    | some v => simp [smaBlockMonitor] at h; subst h; simp [smaSignal]
  · cases o50 with
    | none => simp [crossBlock] at h
    | some a =>
      cases o100 with
      | none => simp [crossBlock] at h
      | some b => simp [crossBlock] at h; subst h; simp
  · cases oR with
    | none => simp [rsiBlock] at h
    | some r => simp [rsiBlock] at h; subst h; simp
  · cases oM with
    | none => simp [macdBlock] at h
    | some m => simp [macdBlock] at h; subst h; simp
  · cases oB with
    | none => simp [bollingerBlock] at h
    | some b =>
      simp only [bollingerBlock] at h
      split at h
      · simp at h; subst h; simp
      · split at h
        · simp at h; subst h; simp
        · simp at h; subst h; simp

/-- C5 counterexample: on a well-formed 10-point payload the 50-day SMA is
null, yet monitor.js's classifier emits no signal at all — in particular no
'insufficient data' warning. -/
theorem monitor_no_insufficient_warning :
    (processStockDataM (fun q => q) 0
      (Payload.mk ((List.range 10).map (fun i => ((i : ℕ), (1 : ℚ))))) "T").sma50
        = none ∧
    (processStockDataM (fun q => q) 0
      (Payload.mk ((List.range 10).map (fun i => ((i : ℕ), (1 : ℚ))))) "T").signals
        = [] := by
  constructor <;> decide

/-- C5 as amended: script.js's classifier emits the warning — for every
(latestPrice, IndicatorSet) with a null configured SMA (50-day or 200-day) it
pushes a warning signal of kind 'insufficient data' naming the required
versus available point count; monitor.js's classifier instead emits no signal
of that kind for any input (it skips the SMA comparison silently). -/
theorem insufficient_data_warning (price : ℚ) (o50 o100 oR o200 : Option ℚ)
    (oM : Option MACDResult) (oB : Option BollingerResult) (dp days : ℕ) :
    (o50 = none → Signal.mk (SignalKind.insufficientData 50 dp) SignalType.warning ∈
      scriptSignals days price o50 o200 dp) ∧
    (o200 = none → Signal.mk (SignalKind.insufficientData 200 dp) SignalType.warning ∈
      scriptSignals days price o50 o200 dp) ∧
    (∀ s ∈ monitorSignals days price o50 o100 oR oM oB,
      ∀ req avail, s.kind ≠ SignalKind.insufficientData req avail) := by
  refine ⟨fun h50 => ?_, fun h200 => ?_,
    monitorSignals_no_insufficient days price o50 o100 oR oM oB⟩
  · subst h50
    simp [scriptSignals, smaBlockScript, List.mem_append]
  · subst h200
    simp [scriptSignals, smaBlockScript, List.mem_append]

/-- Witness for C5's amended theorem: with both SMAs null and 10 data points,
script.js's classifier contains both insufficient-data warnings. -/
theorem insufficient_data_warning_witness :
    Signal.mk (SignalKind.insufficientData 50 10) SignalType.warning ∈
      scriptSignals 0 1 none none 10 ∧
    Signal.mk (SignalKind.insufficientData 200 10) SignalType.warning ∈
      scriptSignals 0 1 none none 10 :=
  ⟨(insufficient_data_warning 1 none none none none none none 10 0).1 rfl,
   (insufficient_data_warning 1 none none none none none none 10 0).2.1 rfl⟩

/-- C6 (code_bug evaluation): extracting closes from a payload whose newest
entry is numeric and whose older entry has a non-numeric close does not fail —
`parseFloat` silently coerces the bad value to NaN (`none`) and the price
array is produced; no MalformedData (or any other) error exists on this path,
as `extractCloses`' total type shows. -/
theorem extraction_coerces_non_numeric :
    extractCloses [(2, CloseField.num 5), (1, CloseField.nonNumeric)] =
      [some 5, none] := by rfl

/-- C7 (code_bug evaluation): zero denominators are not guarded.  On a
constant 20-price window the Bollinger bands collapse (`upper = lower`), yet
the classifier still takes the within-band branch and computes
`(price - lower) / (upper - lower) * 100` with denominator zero (NaN in JS;
division by zero is 0 in the `ℚ` model), emitting a value-carrying signal
instead of treating the percentage as null; and 1-week momentum divides by
`prices[5]` even when it is zero, producing a value (Infinity in JS) instead
of null. -/
theorem zero_denominator_unguarded (sq : ℚ → ℚ) (h0 : sq 0 = 0) :
    calculateBollingerBands sq (List.replicate 20 (100 : ℚ)) 20 =
      some ⟨100, 100, 100, 0⟩ ∧
    Signal.mk (SignalKind.bollWithin 0 100 100) SignalType.warning ∈
      monitorSignals 0 100 none none (some 100) none (some ⟨100, 100, 100, 0⟩) ∧
    ¬ (calculateMomentum [(1 : ℚ), 1, 1, 1, 1, 0]).week = none := by
  refine ⟨?_, ?_, by decide⟩
  · have h20 : ¬ (List.replicate 20 (100 : ℚ)).length < 20 := by simp
    simp only [calculateBollingerBands, if_neg h20, List.take_replicate]
    norm_num
    exact h0
  · norm_num [monitorSignals, staleBlock, smaBlockMonitor, crossBlock, rsiBlock,
      macdBlock, bollingerBlock, List.mem_append]

/-- Witness for C7 with a concrete square-root function agreeing with
`Math.sqrt` at the one point used (`Math.sqrt(0) = 0`). -/
theorem zero_denominator_unguarded_witness :
    calculateBollingerBands (fun _ => (0 : ℚ)) (List.replicate 20 (100 : ℚ)) 20 =
      some ⟨100, 100, 100, 0⟩ :=
  (zero_denominator_unguarded (fun _ => (0 : ℚ)) rfl).1

/-- C2: The orchestrator's run returns exactly one AnalysisResult per input
ticker, in the same order (same index, ticker field uppercased from the
input), no result omitted; when the fetch of a ticker fails, that ticker's
result carries the failure kind in `error` and an empty signal list while the
remaining tickers are still processed (the loop is a total map, so one
failure never aborts the run); on success the result's `error` is null. -/
theorem run_isolates_failures (sq : ℚ → ℚ) (now : ℕ)
    (fetchRes : String → Except FetchErr Payload) (tickers : List String) :
    (mainLoop sq now fetchRes tickers).length = tickers.length ∧
    (∀ i, i < tickers.length →
      ((mainLoop sq now fetchRes tickers).getD i (errorResult "" FetchErr.noData)).ticker
          = (tickers.getD i "").toUpper ∧
      (∀ e, fetchRes (tickers.getD i "") = Except.error e →
        ((mainLoop sq now fetchRes tickers).getD i
            (errorResult "" FetchErr.noData)).error = some e ∧
        ((mainLoop sq now fetchRes tickers).getD i
            (errorResult "" FetchErr.noData)).signals = []) ∧
      (∀ d, fetchRes (tickers.getD i "") = Except.ok d →
        ((mainLoop sq now fetchRes tickers).getD i
            (errorResult "" FetchErr.noData)).error = none)) := by
  have hmap : ∀ i, i < tickers.length →
      (mainLoop sq now fetchRes tickers).getD i (errorResult "" FetchErr.noData) =
        (match fetchRes (tickers.getD i "") with
          | .ok d => processStockDataM sq now d (tickers.getD i "")
          | .error e => errorResult (tickers.getD i "") e) := by
    intro i h
    rw [List.getD_eq_getElem?_getD]
    simp only [mainLoop, List.getElem?_map, List.getElem?_eq_getElem h]
    rw [List.getD_eq_getElem _ _ h]
    rfl
  refine ⟨by simp [mainLoop], fun i hi => ?_⟩
  rw [hmap i hi]
  cases hfr : fetchRes (tickers.getD i "") with
  | error e =>
    refine ⟨rfl, fun e' he' => ?_, fun d hd => Except.noConfusion hd⟩
    injection he' with he''
    subst he''
    exact ⟨rfl, rfl⟩
  | ok d =>
    exact ⟨rfl, fun e' he' => Except.noConfusion he', fun d' hd' => rfl⟩

/-- Witness for C2, matching the spec's end-to-end example: a run over
`[AAA, BBB]` where AAA fails with NoData and BBB succeeds yields AAA's result
with `error = NoData` and empty signals, and BBB's with `error = null`. -/
theorem run_isolates_failures_witness :
    ((mainLoop (fun q => q) 0
        (fun t => if t = "BBB" then Except.ok (Payload.mk [(1, 5)])
                  else Except.error FetchErr.noData)
        ["AAA", "BBB"]).getD 0 (errorResult "" FetchErr.noData)).error =
      some FetchErr.noData ∧
    ((mainLoop (fun q => q) 0
        (fun t => if t = "BBB" then Except.ok (Payload.mk [(1, 5)])
                  else Except.error FetchErr.noData)
        ["AAA", "BBB"]).getD 1 (errorResult "" FetchErr.noData)).error = none := by
  have h := run_isolates_failures (fun q => q) 0
    (fun t => if t = "BBB" then Except.ok (Payload.mk [(1, 5)])
              else Except.error FetchErr.noData) ["AAA", "BBB"]
  exact ⟨((h.2 0 (by decide)).2.1 FetchErr.noData (by rfl)).1,
    (h.2 1 (by decide)).2.2 (Payload.mk [(1, 5)]) (by rfl)⟩

theorem fetch_cache_hit (st : FetchState) (t : String) (now ts : ℕ) (d : Payload)
    (net : Except FetchErr Payload) (netDur : ℕ)
    (h : st.cache t = some (ts, d)) (hfresh : now - ts < CACHE_DURATION_MS) :
    fetchStockDataS st t now net netDur = ⟨Except.ok d, st, 0, none, now⟩ := by
  simp [fetchStockDataS, getCachedData, h, hfresh]

/-- C8: A fetch for ticker T issued after a successful (network) fetch for T
and within the cache TTL performs zero network calls, returns the cached
payload and leaves the state untouched (the cache check precedes the network
path, so no rate-limit delay is consumed and `lastAPICallTime` is not read or
written); a fetch issued after the TTL has elapsed treats the entry as
absent, purges it, and performs exactly one network call. -/
theorem cache_hit_and_expiry (st : FetchState) (t : String) (now1 : ℕ) (d : Payload)
    (netDur : ℕ) (now2 : ℕ) (net2 : Except FetchErr Payload) (netDur2 : ℕ)
    (hmiss : st.cache t = none) (o1 : FetchOutcome)
    (ho1 : o1 = fetchStockDataS st t now1 (Except.ok d) netDur) :
    o1.result = Except.ok d ∧ o1.networkCalls = 1 ∧
    o1.state.cache t = some (o1.endTime, d) ∧
    (now2 - o1.endTime < CACHE_DURATION_MS →
      fetchStockDataS o1.state t now2 net2 netDur2 =
        ⟨Except.ok d, o1.state, 0, none, now2⟩) ∧
    (CACHE_DURATION_MS ≤ now2 - o1.endTime →
      (getCachedData o1.state t now2).1 = none ∧
      (getCachedData o1.state t now2).2.cache t = none ∧
      (fetchStockDataS o1.state t now2 net2 netDur2).networkCalls = 1) := by
  have hget1 : getCachedData st t now1 = (none, st) := by
    simp [getCachedData, hmiss]
  have hcache : o1.state.cache t = some (o1.endTime, d) := by
    rw [ho1]
    simp [fetchStockDataS, hget1, setCachedData]
  refine ⟨by rw [ho1]; simp [fetchStockDataS, hget1],
    by rw [ho1]; simp [fetchStockDataS, hget1], hcache,
    fun hfresh => fetch_cache_hit o1.state t now2 o1.endTime d net2 netDur2
      hcache hfresh, fun hexp => ?_⟩
  have hget2 : getCachedData o1.state t now2 =
      (none, { o1.state with
        cache := fun k => if k = t then none else o1.state.cache k }) := by
    simp [getCachedData, hcache, if_neg (not_lt.mpr hexp)]
  refine ⟨by rw [hget2], by rw [hget2]; simp, ?_⟩
  cases net2 with
  | error e => simp [fetchStockDataS, hget2]
  | ok d2 => simp [fetchStockDataS, hget2]

/-- Witness for C8: a first fetch into an empty cache makes one network call,
and a refetch 1 ms after it returns is served from the cache with zero
network calls. -/
theorem cache_hit_and_expiry_witness :
    (fetchStockDataS ⟨fun _ => none, 0⟩ "A" 0 (Except.ok (Payload.mk [(1, 5)])) 3).networkCalls = 1 ∧
    fetchStockDataS
        (fetchStockDataS ⟨fun _ => none, 0⟩ "A" 0 (Except.ok (Payload.mk [(1, 5)])) 3).state
        "A"
        ((fetchStockDataS ⟨fun _ => none, 0⟩ "A" 0 (Except.ok (Payload.mk [(1, 5)])) 3).endTime + 1)
        (Except.error FetchErr.noData) 0 =
      ⟨Except.ok (Payload.mk [(1, 5)]),
        (fetchStockDataS ⟨fun _ => none, 0⟩ "A" 0 (Except.ok (Payload.mk [(1, 5)])) 3).state,
        0, none,
        (fetchStockDataS ⟨fun _ => none, 0⟩ "A" 0 (Except.ok (Payload.mk [(1, 5)])) 3).endTime + 1⟩ := by
  have h := cache_hit_and_expiry ⟨fun _ => none, 0⟩ "A" 0 (Payload.mk [(1, 5)]) 3
    ((fetchStockDataS ⟨fun _ => none, 0⟩ "A" 0 (Except.ok (Payload.mk [(1, 5)])) 3).endTime + 1)
    (Except.error FetchErr.noData) 0 rfl
    (fetchStockDataS ⟨fun _ => none, 0⟩ "A" 0 (Except.ok (Payload.mk [(1, 5)])) 3) rfl
  exact ⟨h.2.1, h.2.2.2.1 (by decide)⟩

theorem getCachedData_last (st : FetchState) (t : String) (now : ℕ) :
    (getCachedData st t now).2.lastAPICallTime = st.lastAPICallTime := by
  unfold getCachedData
  cases st.cache t with
  | none => rfl
  | some e =>
    rcases e with ⟨ts, d⟩
    by_cases hfresh : now - ts < CACHE_DURATION_MS
    · simp [hfresh]
    · simp [hfresh]

theorem fetch_timing (st : FetchState) (t : String) (now : ℕ)
    (net : Except FetchErr Payload) (netDur : ℕ) (hl : st.lastAPICallTime ≤ now) :
    (∀ c, (fetchStockDataS st t now net netDur).callTime = some c →
      st.lastAPICallTime + API_RATE_LIMIT_DELAY ≤ c ∧
      (fetchStockDataS st t now net netDur).state.lastAPICallTime = c ∧
      c ≤ (fetchStockDataS st t now net netDur).endTime) ∧
    ((fetchStockDataS st t now net netDur).callTime = none →
      (fetchStockDataS st t now net netDur).state.lastAPICallTime =
        st.lastAPICallTime ∧
      (fetchStockDataS st t now net netDur).endTime = now) := by
  unfold fetchStockDataS
  rcases hg : getCachedData st t now with ⟨res, st1⟩
  have hst1 : st1.lastAPICallTime = st.lastAPICallTime := by
    have := getCachedData_last st t now
    rw [hg] at this
    exact this
  cases res with
  | some d => exact ⟨fun c hc => Option.noConfusion hc, fun _ => ⟨hst1, rfl⟩⟩
  | none =>
    have hcall : st.lastAPICallTime + API_RATE_LIMIT_DELAY ≤
        now + (if now - st1.lastAPICallTime < API_RATE_LIMIT_DELAY
               then API_RATE_LIMIT_DELAY - (now - st1.lastAPICallTime) else 0) := by
      rw [hst1]
      by_cases hw : now - st.lastAPICallTime < API_RATE_LIMIT_DELAY
      · rw [if_pos hw]; omega
      · rw [if_neg hw]; omega
    cases net with
    | error e =>
      refine ⟨fun c hc => ?_, fun hnone => Option.noConfusion hnone⟩
      simp only at hc
      injection hc with hc'
      subst hc'
      exact ⟨hcall, rfl, by simp⟩
    | ok d2 =>
      refine ⟨fun c hc => ?_, fun hnone => Option.noConfusion hnone⟩
      simp only at hc
      injection hc with hc'
      subst hc'
      exact ⟨hcall, rfl, by simp⟩

theorem runFetches_calls_spaced (reqs : List FetchReq) :
    ∀ (st : FetchState) (now : ℕ), st.lastAPICallTime ≤ now →
      (∀ c ∈ (runFetches st now reqs).filterMap FetchOutcome.callTime,
        st.lastAPICallTime + API_RATE_LIMIT_DELAY ≤ c) ∧
      List.Chain' (fun a b => a + API_RATE_LIMIT_DELAY ≤ b)
        ((runFetches st now reqs).filterMap FetchOutcome.callTime) := by
  induction reqs with
  | nil => intro st now _; simp [runFetches]
  | cons r rest ih =>
    intro st now hl
    have hlg : st.lastAPICallTime ≤ now + r.gap := le_trans hl (Nat.le_add_right now r.gap)
    have hT := fetch_timing st r.ticker (now + r.gap) r.net r.netDur hlg
    simp only [runFetches, List.filterMap_cons]
    cases hc : (fetchStockDataS st r.ticker (now + r.gap) r.net r.netDur).callTime with
    | none =>
      have hnone := hT.2 hc
      have hl' : (fetchStockDataS st r.ticker (now + r.gap) r.net r.netDur).state.lastAPICallTime ≤
          (fetchStockDataS st r.ticker (now + r.gap) r.net r.netDur).endTime := by
        rw [hnone.1, hnone.2]; exact hlg
      have hrest := ih _ _ hl'
      refine ⟨fun c hcmem => ?_, hrest.2⟩
      have hx := hrest.1 c hcmem
      rw [hnone.1] at hx
      exact hx
    | some c0 =>
      have hsome := hT.1 c0 hc
      have hl' : (fetchStockDataS st r.ticker (now + r.gap) r.net r.netDur).state.lastAPICallTime ≤
          (fetchStockDataS st r.ticker (now + r.gap) r.net r.netDur).endTime := by
        rw [hsome.2.1]; exact hsome.2.2
      have hrest := ih _ _ hl'
      constructor
      · intro c hcmem
        rcases List.mem_cons.mp hcmem with rfl | hmem
        · exact hsome.1
        · have h1 := hrest.1 c hmem
          rw [hsome.2.1] at h1
          omega
      · rw [List.chain'_cons']
        refine ⟨fun y hy => ?_, hrest.2⟩
        have hymem : y ∈ (runFetches
            (fetchStockDataS st r.ticker (now + r.gap) r.net r.netDur).state
            (fetchStockDataS st r.ticker (now + r.gap) r.net r.netDur).endTime
            rest).filterMap FetchOutcome.callTime := by
          exact List.mem_of_mem_head? hy
        have h1 := hrest.1 y hymem
        rw [hsome.2.1] at h1
        omega

/-- C9: Across every sequential run of fetch invocations (any tickers, any
classified outcomes, any inter-call gaps), any two outbound network calls the
fetch layer issues are at least `API_RATE_LIMIT_DELAY` (12000 ms) apart:
before any network call the code suspends until the delay since the shared
`lastAPICallTime` is satisfied. -/
theorem rate_limit_spacing (st : FetchState) (now : ℕ) (reqs : List FetchReq)
    (hl : st.lastAPICallTime ≤ now) :
    List.Pairwise (fun a b => a + API_RATE_LIMIT_DELAY ≤ b)
      ((runFetches st now reqs).filterMap FetchOutcome.callTime) := by
  haveI : IsTrans ℕ (fun a b => a + API_RATE_LIMIT_DELAY ≤ b) :=
    ⟨fun a b c hab hbc => by omega⟩
  exact List.chain'_iff_pairwise.mp (runFetches_calls_spaced reqs st now hl).2

/-- Witness for C9 on a concrete two-request run from the initial state. -/
theorem rate_limit_spacing_witness :
    List.Pairwise (fun a b => a + API_RATE_LIMIT_DELAY ≤ b)
      ((runFetches ⟨fun _ => none, 0⟩ 0
        [⟨"A", 0, Except.error FetchErr.noData, 0⟩,
         ⟨"B", 0, Except.error FetchErr.noData, 0⟩]).filterMap
        FetchOutcome.callTime) :=
  rate_limit_spacing ⟨fun _ => none, 0⟩ 0
    [⟨"A", 0, Except.error FetchErr.noData, 0⟩,
     ⟨"B", 0, Except.error FetchErr.noData, 0⟩] (by decide)

end StockAnalysis
